import Mathlib

/-!
A shallow embedding of the SPV bridge contract from
`src/ink/spv_bridge/lib.rs` (Polkadot-Blockchain-Academy
`spv-bridge-assignment`).

Modelling conventions:
* `HashValue` (`[u8; 32]` in the source) is modelled as `Nat`, read as the
  big-endian unsigned integer the spec uses for the PoW comparison
  (byte-array lexicographic order on fixed-width arrays coincides with
  big-endian numeric order).
* The hash primitive (SHA2-256 over the SCALE encoding, reached through
  `ink::env::hash_encoded`) is outside the spec's scope ("treated as an
  opaque collision-resistant function"), so every operation is
  parametrised by a function `hashH : Header → Nat` standing for
  `SpvBridge::hash_header`, and `hashC : StateClaim → Nat` standing for
  the claim hashing done inside `verify_state`.
* `ink::storage::Mapping` becomes a total function into `Option`.
* Heights, balances and roots (`u64` / `Balance`) are modelled as
  unbounded naturals, following the spec's abstract unsigned integers;
  no reachable scenario in this development approaches `2^64`.
-/

/-- Account identifiers (`AccountId` in ink) are abstract; any type with
decidable equality works, we use `Nat`. -/
abbrev AccountId := Nat

/-- Digests (`HashValue = [u8; 32]`), read as unsigned integers. -/
abbrev HashValue := Nat

/-- A block header from the source chain (struct `Header`,
src/ink/spv_bridge/lib.rs lines 16-27). -/
structure Header where
  height : Nat
  parent : HashValue
  storage_root : Nat
  transactions_root : Nat
  pow_nonce : Nat
deriving DecidableEq, Repr

/-- A stub of a Merkle proof: a single boolean field indicating whether
the proof should be treated as valid (struct `MerkleProof`, lines 41-43). -/
structure MerkleProof where
  verifies : Bool
deriving DecidableEq, Repr

/-- A claim that a key holds a value in the source chain storage
(struct `StateClaim`, lines 66-69). -/
structure StateClaim where
  key : Nat
  value : Nat
deriving DecidableEq, Repr

/-- Errors of the contract (enum `Error`, lines 106-117). -/
inductive Error where
  | InsufficientRelayFee
  | HeaderAlreadySubmitted
  | UnknownParent
  | IncorrectHeight
  | PoWThresholdNotMet
deriving DecidableEq, Repr

/-- The contract storage (struct `SpvBridge`, lines 73-101): header
database, canonical chain index, fee recipients, best height and the
three immutable parameters. -/
structure SpvBridge where
  headers : HashValue → Option Header
  canon_chain : Nat → Option HashValue
  fee_recipient : HashValue → Option AccountId
  best_height : Nat
  difficulty_threshold : Nat
  relay_fee : Nat
  verify_fee : Nat

/-- The Merkle-proof checking stub (lines 46-50): it returns the proof's
`verifies` flag and ignores the claim and the root. -/
def MerkleProof.check_merkle_proof (_claim : Nat) (proof : MerkleProof)
    (_merkle_root : Nat) : Bool :=
  proof.verifies

/-- The constructor (fn `new`, lines 145-176): hash the genesis header,
store it, make it canonical at its height, set `best_height` to its
height, and record the deployer as fee recipient for it. No PoW or
parent check is performed. -/
def SpvBridge.new (hashH : Header → HashValue) (caller : AccountId)
    (source_genesis_header : Header) (difficulty : Nat)
    (init_relay_fee init_verify_fee : Nat) : SpvBridge :=
  let h := hashH source_genesis_header
  { headers := fun d => if d = h then some source_genesis_header else none
    canon_chain := fun ht =>
      if ht = source_genesis_header.height then some h else none
    fee_recipient := fun d => if d = h then some caller else none
    best_height := source_genesis_header.height
    difficulty_threshold := difficulty
    relay_fee := init_relay_fee
    verify_fee := init_verify_fee }

/-- Modelled from the spec: the body of `submit_new_header` is `todo!()`
in the source, so the reorg walk is taken from spec section 4.1: starting
at the new header's height with its digest, write
`CanonicalChainIndex[height] = digest` unconditionally and step to the
parent, stopping as soon as the existing canonical digest at the current
height already equals the walk's digest (the common ancestor). The walk
also stops if the digest is missing from the store (impossible in
reachable states) or at height 0 (never reached: the walk stops at the
genesis height, where the canonical digest matches). -/
def canonUpdate (hs : HashValue → Option Header) :
    Nat → HashValue → (Nat → Option HashValue) → (Nat → Option HashValue)
  | 0, d, canon =>
    if canon 0 = some d then canon
    else fun x => if x = 0 then some d else canon x
  | n + 1, d, canon =>
    if canon (n + 1) = some d then canon
    else
      match hs d with
      | some hdr =>
          canonUpdate hs n hdr.parent
            (fun x => if x = n + 1 then some d else canon x)
      | none => fun x => if x = n + 1 then some d else canon x

/-- Modelled from the spec: the height at which the walk of `canonUpdate`
stops (the "fork point" of spec section 4.1 — the first height, going
downward, whose existing canonical digest equals the new branch's digest
there; the walk writes exactly the heights above it). -/
def canonStop (hs : HashValue → Option Header) :
    Nat → HashValue → (Nat → Option HashValue) → Nat
  | 0, _, _ => 0
  | n + 1, d, canon =>
    if canon (n + 1) = some d then n + 1
    else
      match hs d with
      | some hdr =>
          canonStop hs n hdr.parent
            (fun x => if x = n + 1 then some d else canon x)
      | none => n + 1

/-- Modelled from the spec: the body of `submit_new_header` (lines
190-193) is `todo!()` in the source, so validation order and the reorg
procedure follow spec sections 4.1 and 7 exactly: fee check, duplicate
check, parent check, height check, PoW check, in that order and
fail-fast; on success insert into the header store and the fee ledger,
then adopt the branch iff it is strictly taller than `best_height`.
Returns the call result together with the post-state. -/
def submit_new_header (hashH : Header → HashValue) (caller : AccountId)
    (payment : Nat) (s : SpvBridge) (header : Header) :
    Except Error Unit × SpvBridge :=
  if payment < s.relay_fee then (.error .InsufficientRelayFee, s)
  else
    let d := hashH header
    if (s.headers d).isSome then (.error .HeaderAlreadySubmitted, s)
    else
      match s.headers header.parent with
      | none => (.error .UnknownParent, s)
      | some parentHeader =>
        if header.height ≠ parentHeader.height + 1 then
          (.error .IncorrectHeight, s)
        else if ¬ d < s.difficulty_threshold then
          (.error .PoWThresholdNotMet, s)
        else
          let headers' := fun x => if x = d then some header else s.headers x
          let fee' := fun x => if x = d then some caller else s.fee_recipient x
          if header.height ≤ s.best_height then
            (.ok (), { s with headers := headers', fee_recipient := fee' })
          else
            (.ok (),
             { s with
               headers := headers'
               fee_recipient := fee'
               canon_chain := canonUpdate headers' header.height d s.canon_chain
               best_height := header.height })

/-- Modelled from the spec: the shared precondition chain of spec section
4.2 used by both verification entry points, whose bodies are `todo!()`
in the source: sufficient payment, the header is stored, it is canonical
at its height, it is at least `min_depth` below `best_height`, and the
proof oracle accepts the claim digest against the selected commitment
root. -/
def verify_check (s : SpvBridge) (payment : Nat) (header_hash : HashValue)
    (min_depth : Nat) (claim_digest : Nat) (p : MerkleProof)
    (selectRoot : Header → Nat) : Bool :=
  decide (s.verify_fee ≤ payment) &&
    match s.headers header_hash with
    | none => false
    | some hdr =>
        decide (s.canon_chain hdr.height = some header_hash) &&
        decide (min_depth ≤ s.best_height - hdr.height) &&
        MerkleProof.check_merkle_proof claim_digest p (selectRoot hdr)

/-- Modelled from the spec: `verify_transaction` (lines 205-208) is
`todo!()` in the source; per spec section 4.2 it runs the shared
precondition chain against the header's `transactions_root` and, on
success, transfers `verify_fee` to the fee-ledger recipient of the
header. The transfer is modelled as the second component: the recipient
paid together with the amount, `none` when nothing is paid. Durable
contract state is unchanged. -/
def verify_transaction (s : SpvBridge) (payment : Nat) (tx_hash : Nat)
    (header_hash : HashValue) (min_depth : Nat) (p : MerkleProof) :
    Bool × Option (AccountId × Nat) :=
  let ok := verify_check s payment header_hash min_depth tx_hash p
    (fun hdr => hdr.transactions_root)
  (ok,
   if ok then (s.fee_recipient header_hash).map (fun a => (a, s.verify_fee))
   else none)

/-- Modelled from the spec: `verify_state` (lines 214-220) is `todo!()`
in the source after computing the claim hash; per spec section 4.2 it
hashes the state claim and runs the shared precondition chain against
the header's `storage_root`, paying the header's fee-ledger recipient on
success. -/
def verify_state (hashC : StateClaim → Nat) (s : SpvBridge) (payment : Nat)
    (claim : StateClaim) (block_hash : HashValue) (min_depth : Nat)
    (p : MerkleProof) : Bool × Option (AccountId × Nat) :=
  let claim_hash := hashC claim
  let ok := verify_check s payment block_hash min_depth claim_hash p
    (fun hdr => hdr.storage_root)
  (ok,
   if ok then (s.fee_recipient block_hash).map (fun a => (a, s.verify_fee))
   else none)

/-- One call to a mutating entry point of the deployed contract. -/
inductive Call where
  | submit (caller : AccountId) (payment : Nat) (header : Header)
  | verifyTx (payment : Nat) (tx_hash : Nat) (header_hash : HashValue)
      (min_depth : Nat) (p : MerkleProof)
  | verifySt (payment : Nat) (claim : StateClaim) (block_hash : HashValue)
      (min_depth : Nat) (p : MerkleProof)

/-- The state after one call: `submit_new_header` may mutate storage,
the two verification calls read storage and pay a fee but leave the
durable contract state unchanged (spec sections 4.2 and 5). -/
def stepCall (hashH : Header → HashValue) (_hashC : StateClaim → Nat)
    (c : Call) (s : SpvBridge) : SpvBridge :=
  match c with
  | .submit caller payment header =>
      (submit_new_header hashH caller payment s header).2
  | .verifyTx _ _ _ _ _ => s
  | .verifySt _ _ _ _ _ => s

/-- States reachable from the constructor by a sequence of calls, for a
fixed deployment (hash functions, genesis header, parameters, deployer). -/
inductive Reachable (hashH : Header → HashValue) (hashC : StateClaim → Nat)
    (g : Header) (difficulty relayFee verifyFee : Nat) (deployer : AccountId) :
    SpvBridge → Prop where
  | deploy :
      Reachable hashH hashC g difficulty relayFee verifyFee deployer
        (SpvBridge.new hashH deployer g difficulty relayFee verifyFee)
  | step {s : SpvBridge} (c : Call) :
      Reachable hashH hashC g difficulty relayFee verifyFee deployer s →
      Reachable hashH hashC g difficulty relayFee verifyFee deployer
        (stepCall hashH hashC c s)

/-- The digest reached from `d` by following `k` parent links through the
header store. -/
def ancestor (hs : HashValue → Option Header) : HashValue → Nat → Option HashValue
  | d, 0 => some d
  | d, k + 1 =>
    match hs d with
    | some hdr => ancestor hs hdr.parent k
    | none => none

/-- The branch ending at digest `d`, at height `n`, descends through
stored headers with contiguous heights down to the genesis digest `gd`
at height `gh`. -/
inductive Anc (hs : HashValue → Option Header) (gd : HashValue) (gh : Nat) :
    Nat → HashValue → Prop where
  | base : Anc hs gd gh gh gd
  | step {n : Nat} {d : HashValue} {hdr : Header} :
      hs d = some hdr → hdr.height = n + 1 → gh < n + 1 →
      Anc hs gd gh n hdr.parent → Anc hs gd gh (n + 1) d

/-- The inductive invariant of the bridge for a deployment with genesis
header `g` hashed by `hashH`: the genesis is stored; every other stored
header links to a stored parent one height below it and sits strictly
above the genesis height; fee-ledger entries cover the stored headers;
the canonical index is empty above `best_height`, holds the genesis at
the genesis height, and is contiguous between the genesis height and
`best_height`. -/
structure BridgeInv (hashH : Header → HashValue) (g : Header) (s : SpvBridge) : Prop where
  genesis_stored : s.headers (hashH g) = some g
  stored_wf : ∀ d hdr, s.headers d = some hdr → d ≠ hashH g →
    ∃ p, s.headers hdr.parent = some p ∧ hdr.height = p.height + 1 ∧
      g.height < hdr.height
  fee_entry : ∀ d, (s.headers d).isSome = true → (s.fee_recipient d).isSome = true
  best_ge : g.height ≤ s.best_height
  canon_high : ∀ h, s.best_height < h → s.canon_chain h = none
  canon_genesis : s.canon_chain g.height = some (hashH g)
  canon_contig : ∀ h, g.height ≤ h → h ≤ s.best_height →
    ∃ d hdr, s.canon_chain h = some d ∧ s.headers d = some hdr ∧
      hdr.height = h ∧ (g.height < h → s.canon_chain (h - 1) = some hdr.parent)

/-- A concrete stand-in for the header hash used to build example
deployments: the digest of a header is its transactions root. The
examples pick distinct transaction roots, so distinct headers get
distinct digests. -/
def toyHash (h : Header) : Nat := h.transactions_root

/-- A concrete stand-in for the claim hash of `verify_state`. -/
def toyHashClaim (c : StateClaim) : Nat := c.key

/-- Example genesis header at height 100 with digest `toyHash = 1`. -/
def gHeader : Header := ⟨100, 0, 0, 1, 1⟩

/-- Example deployment: deployer 7, difficulty threshold 10, relay fee 5,
verify fee 3. -/
def s0 : SpvBridge := SpvBridge.new toyHash 7 gHeader 10 5 3

/-- Example child of the genesis at height 101, digest 2, satisfying the
PoW bound 2 < 10. -/
def aHeader : Header := ⟨101, 1, 0, 2, 1⟩


/-! ## Lemmas about the reorg walk -/

theorem canonUpdate_high (hs : HashValue → Option Header) :
    ∀ (n : Nat) (d : HashValue) (canon : Nat → Option HashValue) (h : Nat),
      n < h → canonUpdate hs n d canon h = canon h := by
  intro n
  induction n with
  | zero =>
    intro d canon h hh
    simp only [canonUpdate]
    split
    · rfl
    · simp [Nat.pos_iff_ne_zero.mp hh]
  | succ n ih =>
    intro d canon h hh
    by_cases hc : canon (n + 1) = some d
    · simp [canonUpdate, hc]
    · cases hq : hs d with
      | some hdr =>
        have hupd : canonUpdate hs (n + 1) d canon
            = canonUpdate hs n hdr.parent
                (fun x => if x = n + 1 then some d else canon x) := by
          simp [canonUpdate, hc, hq]
        rw [hupd, ih _ _ h (Nat.lt_of_succ_lt hh)]
        simp [Nat.ne_of_gt hh]
      | none =>
        have hupd : canonUpdate hs (n + 1) d canon
            = fun x => if x = n + 1 then some d else canon x := by
          simp [canonUpdate, hc, hq]
        rw [hupd]
        simp [Nat.ne_of_gt hh]

theorem canonStop_le (hs : HashValue → Option Header) :
    ∀ (n : Nat) (d : HashValue) (canon : Nat → Option HashValue),
      canonStop hs n d canon ≤ n := by
  intro n
  induction n with
  | zero => intro d canon; simp [canonStop]
  | succ n ih =>
    intro d canon
    by_cases hc : canon (n + 1) = some d
    · simp [canonStop, hc]
    · cases hq : hs d with
      | some hdr =>
        have hstop : canonStop hs (n + 1) d canon
            = canonStop hs n hdr.parent
                (fun x => if x = n + 1 then some d else canon x) := by
          simp [canonStop, hc, hq]
        rw [hstop]
        exact Nat.le_succ_of_le (ih _ _)
      | none =>
        simp [canonStop, hc, hq]

theorem canonUpdate_range (hs : HashValue → Option Header) :
    ∀ (n : Nat) (d : HashValue) (canon : Nat → Option HashValue) (h : Nat),
      canonStop hs n d canon ≤ h → h ≤ n →
      canonUpdate hs n d canon h = ancestor hs d (n - h) := by
  intro n
  induction n with
  | zero =>
    intro d canon h _ hle
    have h0 : h = 0 := Nat.le_zero.mp hle
    subst h0
    simp only [canonUpdate, ancestor]
    split
    · assumption
    · simp
  | succ n ih =>
    intro d canon h hge hle
    by_cases hc : canon (n + 1) = some d
    · have hstop : canonStop hs (n + 1) d canon = n + 1 := by
        simp [canonStop, hc]
      rw [hstop] at hge
      have h1 : h = n + 1 := Nat.le_antisymm hle hge
      subst h1
      simp [canonUpdate, hc, ancestor]
    · cases hq : hs d with
      | some hdr =>
        have hstop : canonStop hs (n + 1) d canon
            = canonStop hs n hdr.parent
                (fun x => if x = n + 1 then some d else canon x) := by
          simp [canonStop, hc, hq]
        have hupd : canonUpdate hs (n + 1) d canon
            = canonUpdate hs n hdr.parent
                (fun x => if x = n + 1 then some d else canon x) := by
          simp [canonUpdate, hc, hq]
        rw [hstop] at hge
        rw [hupd]
        rcases Nat.lt_or_ge h (n + 1) with hlt | hge2
        · have hn : h ≤ n := Nat.lt_succ_iff.mp hlt
          rw [ih _ _ h hge hn]
          have hsub : n + 1 - h = (n - h) + 1 := by omega
          rw [hsub]
          simp [ancestor, hq]
        · have h1 : h = n + 1 := Nat.le_antisymm hle hge2
          subst h1
          rw [canonUpdate_high hs n _ _ _ (Nat.lt_succ_self n)]
          simp [ancestor]
      | none =>
        have hstop : canonStop hs (n + 1) d canon = n + 1 := by
          simp [canonStop, hc, hq]
        rw [hstop] at hge
        have h1 : h = n + 1 := Nat.le_antisymm hle hge
        subst h1
        simp [canonUpdate, hc, hq, ancestor]

theorem canonUpdate_low (hs : HashValue → Option Header) :
    ∀ (n : Nat) (d : HashValue) (canon : Nat → Option HashValue) (h : Nat),
      h < canonStop hs n d canon → canonUpdate hs n d canon h = canon h := by
  intro n
  induction n with
  | zero =>
    intro d canon h hlt
    simp [canonStop] at hlt
  | succ n ih =>
    intro d canon h hlt
    by_cases hc : canon (n + 1) = some d
    · simp [canonUpdate, hc]
    · cases hq : hs d with
      | some hdr =>
        have hstop : canonStop hs (n + 1) d canon
            = canonStop hs n hdr.parent
                (fun x => if x = n + 1 then some d else canon x) := by
          simp [canonStop, hc, hq]
        have hupd : canonUpdate hs (n + 1) d canon
            = canonUpdate hs n hdr.parent
                (fun x => if x = n + 1 then some d else canon x) := by
          simp [canonUpdate, hc, hq]
        rw [hstop] at hlt
        rw [hupd, ih _ _ h hlt]
        have hlt2 : h < n + 1 :=
          Nat.lt_of_lt_of_le hlt (Nat.le_succ_of_le (canonStop_le hs n _ _))
        simp [Nat.ne_of_lt hlt2]
      | none =>
        have hstop : canonStop hs (n + 1) d canon = n + 1 := by
          simp [canonStop, hc, hq]
        have hupd : canonUpdate hs (n + 1) d canon
            = fun x => if x = n + 1 then some d else canon x := by
          simp [canonUpdate, hc, hq]
        rw [hstop] at hlt
        rw [hupd]
        simp [Nat.ne_of_lt hlt]

theorem ancestor_succ (hs : HashValue → Option Header) :
    ∀ (k : Nat) (d e : HashValue) (hdr : Header),
      ancestor hs d k = some e → hs e = some hdr →
      ancestor hs d (k + 1) = some hdr.parent := by
  intro k
  induction k with
  | zero =>
    intro d e hdr h1 h2
    simp only [ancestor] at h1
    cases h1
    simp [ancestor, h2]
  | succ k ih =>
    intro d e hdr h1 h2
    cases hq : hs d with
    | some hdr0 =>
      simp only [ancestor, hq] at h1 ⊢
      exact ih _ _ _ h1 h2
    | none =>
      simp only [ancestor, hq] at h1
      exact absurd h1 (by simp)

/-! ## Lemmas about branches descending to the genesis -/

theorem anc_ge {hs : HashValue → Option Header} {gd : HashValue} {gh n : Nat}
    {d : HashValue} (ha : Anc hs gd gh n d) : gh ≤ n := by
  induction ha with
  | base => exact Nat.le_refl _
  | step _ _ hgt _ _ => exact Nat.le_of_lt hgt

theorem anc_base_inv {hs : HashValue → Option Header} {gd : HashValue} {gh : Nat}
    {d : HashValue} (ha : Anc hs gd gh gh d) : d = gd := by
  cases ha with
  | base => rfl
  | step _ _ hgt _ => exact absurd hgt (Nat.lt_irrefl _)

theorem anc_elim {hs : HashValue → Option Header} {gd : HashValue} {gh n : Nat}
    {d : HashValue} (ha : Anc hs gd gh n d) (hgt : gh < n) :
    ∃ hdr, hs d = some hdr ∧ hdr.height = n ∧ Anc hs gd gh (n - 1) hdr.parent := by
  cases ha with
  | base => exact absurd hgt (Nat.lt_irrefl _)
  | step hsd hht _ htail =>
    exact ⟨_, hsd, hht, by simpa using htail⟩

theorem anc_ancestor {hs : HashValue → Option Header} {gd : HashValue} {gh : Nat} :
    ∀ {n : Nat} {d : HashValue}, Anc hs gd gh n d →
      ∀ h, gh ≤ h → h ≤ n →
        ∃ e, ancestor hs d (n - h) = some e ∧ Anc hs gd gh h e := by
  intro n d ha
  induction ha with
  | base =>
    intro h hge hle
    have h1 : h = gh := Nat.le_antisymm hle hge
    subst h1
    exact ⟨gd, by simp [ancestor], Anc.base⟩
  | step hsd hht hgt htail ih =>
    rename_i n d hdr
    intro h hge hle
    rcases Nat.lt_or_ge h (n + 1) with hlt | hge2
    · have hn : h ≤ n := Nat.lt_succ_iff.mp hlt
      rcases ih h hge hn with ⟨e, he, hanc⟩
      refine ⟨e, ?_, hanc⟩
      have hsub : n + 1 - h = (n - h) + 1 := by omega
      rw [hsub]
      simp [ancestor, hsd, he]
    · have h1 : h = n + 1 := Nat.le_antisymm hle hge2
      subst h1
      exact ⟨d, by simp [ancestor], Anc.step hsd hht hgt htail⟩

theorem stored_anc (hs : HashValue → Option Header) (g : Header) (gd : HashValue)
    (hg : hs gd = some g)
    (hwf : ∀ d hdr, hs d = some hdr → d ≠ gd →
      ∃ p, hs hdr.parent = some p ∧ hdr.height = p.height + 1 ∧
        g.height < hdr.height) :
    ∀ (n : Nat) (d : HashValue) (hdr : Header), hs d = some hdr →
      hdr.height = n → Anc hs gd g.height n d := by
  intro n
  induction n using Nat.strong_induction_on with
  | _ n ih =>
    intro d hdr hsd hht
    by_cases hd : d = gd
    · subst hd
      rw [hg] at hsd
      cases hsd
      subst hht
      exact Anc.base
    · rcases hwf d hdr hsd hd with ⟨p, hp, hh, hgt⟩
      rcases n with _ | m
      · omega
      · have hm : hdr.height = m + 1 := hht
        have hpm : p.height = m := by omega
        have htail : Anc hs gd g.height m hdr.parent :=
          ih m (Nat.lt_succ_self m) hdr.parent p hp hpm
        exact Anc.step hsd hm (by omega) htail

theorem canonStop_ge {hs : HashValue → Option Header} {gd : HashValue} {gh : Nat} :
    ∀ {n : Nat} {d : HashValue}, Anc hs gd gh n d →
      ∀ canon : Nat → Option HashValue, canon gh = some gd →
        gh ≤ canonStop hs n d canon := by
  intro n d ha
  induction ha with
  | base =>
    intro canon hcg
    rcases Nat.eq_zero_or_pos gh with h0 | hpos
    · subst h0; simp [canonStop]
    · rcases gh with _ | m
      · omega
      · simp [canonStop, hcg]
  | step hsd hht hgt htail ih =>
    rename_i n d hdr
    intro canon hcg
    by_cases hc : canon (n + 1) = some d
    · have : canonStop hs (n + 1) d canon = n + 1 := by simp [canonStop, hc]
      omega
    · have hstop : canonStop hs (n + 1) d canon
          = canonStop hs n hdr.parent
              (fun x => if x = n + 1 then some d else canon x) := by
        simp [canonStop, hc, hsd]
      rw [hstop]
      refine ih _ ?_
      have : gh ≠ n + 1 := by omega
      simp [this, hcg]

theorem canonUpdate_at_stop {hs : HashValue → Option Header} {gd : HashValue}
    {gh : Nat} :
    ∀ {n : Nat} {d : HashValue}, Anc hs gd gh n d →
      ∀ canon : Nat → Option HashValue, canon gh = some gd →
        canonUpdate hs n d canon (canonStop hs n d canon)
          = canon (canonStop hs n d canon) := by
  intro n d ha
  induction ha with
  | base =>
    intro canon hcg
    rcases gh with _ | m
    · simp [canonStop, canonUpdate, hcg]
    · simp [canonStop, canonUpdate, hcg]
  | step hsd hht hgt htail ih =>
    rename_i n d hdr
    intro canon hcg
    by_cases hc : canon (n + 1) = some d
    · simp [canonStop, canonUpdate, hc]
    · have hstop : canonStop hs (n + 1) d canon
          = canonStop hs n hdr.parent
              (fun x => if x = n + 1 then some d else canon x) := by
        simp [canonStop, hc, hsd]
      have hupd : canonUpdate hs (n + 1) d canon
          = canonUpdate hs n hdr.parent
              (fun x => if x = n + 1 then some d else canon x) := by
        simp [canonUpdate, hc, hsd]
      rw [hstop, hupd]
      have hcg' : (fun x => if x = n + 1 then some d else canon x) gh = some gd := by
        have : gh ≠ n + 1 := by omega
        simp [this, hcg]
      rw [ih _ hcg']
      have hf : canonStop hs n hdr.parent
          (fun x => if x = n + 1 then some d else canon x) ≤ n :=
        canonStop_le hs n _ _
      have : canonStop hs n hdr.parent
          (fun x => if x = n + 1 then some d else canon x) ≠ n + 1 := by omega
      simp [this]

/-! ## Case analysis of submit_new_header -/

theorem submit_eq_insufficient (hashH : Header → HashValue) (caller : AccountId)
    (payment : Nat) (s : SpvBridge) (header : Header)
    (h1 : payment < s.relay_fee) :
    submit_new_header hashH caller payment s header
      = (.error .InsufficientRelayFee, s) := by
  simp [submit_new_header, h1]

theorem submit_eq_duplicate (hashH : Header → HashValue) (caller : AccountId)
    (payment : Nat) (s : SpvBridge) (header : Header)
    (h1 : ¬ payment < s.relay_fee)
    (h2 : (s.headers (hashH header)).isSome = true) :
    submit_new_header hashH caller payment s header
      = (.error .HeaderAlreadySubmitted, s) := by
  simp [submit_new_header, h1, h2]

theorem submit_eq_unknown_parent (hashH : Header → HashValue) (caller : AccountId)
    (payment : Nat) (s : SpvBridge) (header : Header)
    (h1 : ¬ payment < s.relay_fee)
    (h2 : s.headers (hashH header) = none)
    (h3 : s.headers header.parent = none) :
    submit_new_header hashH caller payment s header
      = (.error .UnknownParent, s) := by
  simp [submit_new_header, h1, h2, h3]

theorem submit_eq_incorrect_height (hashH : Header → HashValue) (caller : AccountId)
    (payment : Nat) (s : SpvBridge) (header : Header) (p : Header)
    (h1 : ¬ payment < s.relay_fee)
    (h2 : s.headers (hashH header) = none)
    (h3 : s.headers header.parent = some p)
    (h4 : header.height ≠ p.height + 1) :
    submit_new_header hashH caller payment s header
      = (.error .IncorrectHeight, s) := by
  simp [submit_new_header, h1, h2, h3, h4]

theorem submit_eq_pow (hashH : Header → HashValue) (caller : AccountId)
    (payment : Nat) (s : SpvBridge) (header : Header) (p : Header)
    (h1 : ¬ payment < s.relay_fee)
    (h2 : s.headers (hashH header) = none)
    (h3 : s.headers header.parent = some p)
    (h4 : header.height = p.height + 1)
    (h5 : ¬ hashH header < s.difficulty_threshold) :
    submit_new_header hashH caller payment s header
      = (.error .PoWThresholdNotMet, s) := by
  simp [submit_new_header, h1, h2, h3, h4, h5]

theorem submit_eq_ok_noreorg (hashH : Header → HashValue) (caller : AccountId)
    (payment : Nat) (s : SpvBridge) (header : Header) (p : Header)
    (h1 : ¬ payment < s.relay_fee)
    (h2 : s.headers (hashH header) = none)
    (h3 : s.headers header.parent = some p)
    (h4 : header.height = p.height + 1)
    (h5 : hashH header < s.difficulty_threshold)
    (h6 : header.height ≤ s.best_height) :
    submit_new_header hashH caller payment s header
      = (.ok (),
         { s with
           headers := fun x => if x = hashH header then some header else s.headers x
           fee_recipient :=
             fun x => if x = hashH header then some caller else s.fee_recipient x }) := by
  have h6b : ¬ s.best_height < p.height + 1 := by omega
  simp [submit_new_header, h1, h2, h3, h4, h5, h6, h6b]

theorem submit_eq_ok_reorg (hashH : Header → HashValue) (caller : AccountId)
    (payment : Nat) (s : SpvBridge) (header : Header) (p : Header)
    (h1 : ¬ payment < s.relay_fee)
    (h2 : s.headers (hashH header) = none)
    (h3 : s.headers header.parent = some p)
    (h4 : header.height = p.height + 1)
    (h5 : hashH header < s.difficulty_threshold)
    (h6 : s.best_height < header.height) :
    submit_new_header hashH caller payment s header
      = (.ok (),
         { s with
           headers := fun x => if x = hashH header then some header else s.headers x
           fee_recipient :=
             fun x => if x = hashH header then some caller else s.fee_recipient x
           canon_chain :=
             canonUpdate
               (fun x => if x = hashH header then some header else s.headers x)
               header.height (hashH header) s.canon_chain
           best_height := header.height }) := by
  have h6' : ¬ header.height ≤ s.best_height := by omega
  have h6b : ¬ p.height + 1 ≤ s.best_height := by omega
  simp [submit_new_header, h1, h2, h3, h4, h5, h6', h6b]

theorem submit_error_state (hashH : Header → HashValue) (caller : AccountId)
    (payment : Nat) (s : SpvBridge) (header : Header)
    (hne : (submit_new_header hashH caller payment s header).1 ≠ .ok ()) :
    (submit_new_header hashH caller payment s header).2 = s := by
  by_cases h1 : payment < s.relay_fee
  · rw [submit_eq_insufficient hashH caller payment s header h1]
  · by_cases h2 : (s.headers (hashH header)).isSome = true
    · rw [submit_eq_duplicate hashH caller payment s header h1 h2]
    · have h2' : s.headers (hashH header) = none := by
        rcases hx : s.headers (hashH header) with _ | v
        · rfl
        · rw [hx] at h2; simp at h2
      cases h3 : s.headers header.parent with
      | none => rw [submit_eq_unknown_parent hashH caller payment s header h1 h2' h3]
      | some p =>
        by_cases h4 : header.height = p.height + 1
        · by_cases h5 : hashH header < s.difficulty_threshold
          · exfalso
            apply hne
            rcases Nat.lt_or_ge s.best_height header.height with h6 | h6
            · rw [submit_eq_ok_reorg hashH caller payment s header p h1 h2' h3 h4 h5 h6]
            · rw [submit_eq_ok_noreorg hashH caller payment s header p h1 h2' h3 h4 h5 h6]
          · rw [submit_eq_pow hashH caller payment s header p h1 h2' h3 h4 h5]
        · rw [submit_eq_incorrect_height hashH caller payment s header p h1 h2' h3 h4]

theorem submit_ok_elim (hashH : Header → HashValue) (caller : AccountId)
    (payment : Nat) (s : SpvBridge) (header : Header)
    (hok : (submit_new_header hashH caller payment s header).1 = .ok ()) :
    s.relay_fee ≤ payment ∧ s.headers (hashH header) = none ∧
    (∃ p, s.headers header.parent = some p ∧ header.height = p.height + 1) ∧
    hashH header < s.difficulty_threshold ∧
    (submit_new_header hashH caller payment s header).2.headers
      = (fun x => if x = hashH header then some header else s.headers x) ∧
    (submit_new_header hashH caller payment s header).2.fee_recipient
      = (fun x => if x = hashH header then some caller else s.fee_recipient x) ∧
    ((header.height ≤ s.best_height ∧
      (submit_new_header hashH caller payment s header).2.canon_chain = s.canon_chain ∧
      (submit_new_header hashH caller payment s header).2.best_height = s.best_height) ∨
     (s.best_height < header.height ∧
      (submit_new_header hashH caller payment s header).2.canon_chain
        = canonUpdate
            (fun x => if x = hashH header then some header else s.headers x)
            header.height (hashH header) s.canon_chain ∧
      (submit_new_header hashH caller payment s header).2.best_height = header.height)) := by
  by_cases h1 : payment < s.relay_fee
  · rw [submit_eq_insufficient hashH caller payment s header h1] at hok
    exact absurd hok (by simp)
  · by_cases h2 : (s.headers (hashH header)).isSome = true
    · rw [submit_eq_duplicate hashH caller payment s header h1 h2] at hok
      exact absurd hok (by simp)
    · have h2' : s.headers (hashH header) = none := by
        rcases hx : s.headers (hashH header) with _ | v
        · rfl
        · rw [hx] at h2; simp at h2
      cases h3 : s.headers header.parent with
      | none =>
        rw [submit_eq_unknown_parent hashH caller payment s header h1 h2' h3] at hok
        exact absurd hok (by simp)
      | some p =>
        by_cases h4 : header.height = p.height + 1
        · by_cases h5 : hashH header < s.difficulty_threshold
          · refine ⟨Nat.le_of_not_lt h1, h2', ⟨p, rfl, h4⟩, h5, ?_⟩
            rcases Nat.lt_or_ge s.best_height header.height with h6 | h6
            · rw [submit_eq_ok_reorg hashH caller payment s header p h1 h2' h3 h4 h5 h6]
              exact ⟨rfl, rfl, Or.inr ⟨h6, rfl, rfl⟩⟩
            · rw [submit_eq_ok_noreorg hashH caller payment s header p h1 h2' h3 h4 h5 h6]
              exact ⟨rfl, rfl, Or.inl ⟨h6, rfl, rfl⟩⟩
          · rw [submit_eq_pow hashH caller payment s header p h1 h2' h3 h4 h5] at hok
            exact absurd hok (by simp)
        · rw [submit_eq_incorrect_height hashH caller payment s header p h1 h2' h3 h4] at hok
          exact absurd hok (by simp)

/-! ## The invariant holds initially and is preserved -/

theorem bridgeInv_new (hashH : Header → HashValue) (caller : AccountId)
    (g : Header) (diff rf vf : Nat) :
    BridgeInv hashH g (SpvBridge.new hashH caller g diff rf vf) := by
  constructor
  · simp [SpvBridge.new]
  · intro d hdr hd hne
    simp [SpvBridge.new, hne] at hd
  · intro d hd
    simp only [SpvBridge.new] at hd ⊢
    by_cases hdg : d = hashH g
    · simp [hdg]
    · simp [hdg] at hd
  · simp [SpvBridge.new]
  · intro h hgt
    simp only [SpvBridge.new] at hgt ⊢
    have : h ≠ g.height := by omega
    simp [this]
  · simp [SpvBridge.new]
  · intro h h1 h2
    simp only [SpvBridge.new] at h2 ⊢
    have hg : h = g.height := Nat.le_antisymm h2 h1
    subst hg
    refine ⟨hashH g, g, by simp, by simp, rfl, ?_⟩
    intro hc
    exact absurd hc (Nat.lt_irrefl _)

theorem bridgeInv_submit (hashH : Header → HashValue) (g : Header)
    (caller : AccountId) (payment : Nat) (s : SpvBridge) (header : Header)
    (inv : BridgeInv hashH g s) :
    BridgeInv hashH g (submit_new_header hashH caller payment s header).2 := by
  by_cases hok : (submit_new_header hashH caller payment s header).1 = .ok ()
  case neg =>
    rw [submit_error_state hashH caller payment s header hok]
    exact inv
  case pos =>
  obtain ⟨hpay, hfresh, ⟨p, hp, hh⟩, hpow, hH, hF, hcases⟩ :=
    submit_ok_elim hashH caller payment s header hok
  have hmono : ∀ d hdr, s.headers d = some hdr →
      (submit_new_header hashH caller payment s header).2.headers d = some hdr := by
    intro d hdr hd
    rw [hH]
    by_cases hdd : d = hashH header
    · subst hdd; rw [hd] at hfresh; cases hfresh
    · simp [hdd, hd]
  have hnew : (submit_new_header hashH caller payment s header).2.headers
      (hashH header) = some header := by
    rw [hH]; simp
  have helim : ∀ d hdr,
      (submit_new_header hashH caller payment s header).2.headers d = some hdr →
      (d = hashH header ∧ hdr = header) ∨ s.headers d = some hdr := by
    intro d hdr hd
    rw [hH] at hd
    by_cases hdd : d = hashH header
    · subst hdd; simp at hd; exact Or.inl ⟨rfl, hd.symm⟩
    · simp [hdd] at hd; exact Or.inr hd
  have hgd0 : hashH g ≠ hashH header := by
    intro he
    rw [← he, inv.genesis_stored] at hfresh
    cases hfresh
  have hpg : g.height ≤ p.height := by
    by_cases hpd : header.parent = hashH g
    · rw [hpd, inv.genesis_stored] at hp
      cases hp
      exact Nat.le_refl _
    · rcases inv.stored_wf _ _ hp hpd with ⟨q, _, hq2, hq3⟩
      omega
  have hht_gt : g.height < header.height := by omega
  have hgs' : (submit_new_header hashH caller payment s header).2.headers (hashH g)
      = some g := hmono _ _ inv.genesis_stored
  have swf' : ∀ d hdr,
      (submit_new_header hashH caller payment s header).2.headers d = some hdr →
      d ≠ hashH g →
      ∃ q, (submit_new_header hashH caller payment s header).2.headers hdr.parent
          = some q ∧ hdr.height = q.height + 1 ∧ g.height < hdr.height := by
    intro d hdr hd hne
    rcases helim d hdr hd with ⟨hdd, hdr_eq⟩ | hold
    · subst hdr_eq
      exact ⟨p, hmono _ _ hp, hh, hht_gt⟩
    · rcases inv.stored_wf d hdr hold hne with ⟨q, hq1, hq2, hq3⟩
      exact ⟨q, hmono _ _ hq1, hq2, hq3⟩
  have hfee : ∀ d,
      ((submit_new_header hashH caller payment s header).2.headers d).isSome = true →
      ((submit_new_header hashH caller payment s header).2.fee_recipient d).isSome
        = true := by
    intro d hd
    rw [hF]
    by_cases hdd : d = hashH header
    · simp [hdd]
    · simp only [hdd, if_false]
      apply inv.fee_entry
      rw [hH] at hd
      simpa [hdd] using hd
  rcases hcases with ⟨h6, hcanon, hbest⟩ | ⟨h6, hcanon, hbest⟩
  · -- the new header is not strictly taller: no reorg
    constructor
    · exact hgs'
    · exact swf'
    · exact hfee
    · rw [hbest]; exact inv.best_ge
    · rw [hcanon, hbest]; exact inv.canon_high
    · rw [hcanon]; exact inv.canon_genesis
    · intro h hh1 hh2
      rw [hbest] at hh2
      rw [hcanon]
      rcases inv.canon_contig h hh1 hh2 with ⟨d, hdr, c1, c2, c3, c4⟩
      exact ⟨d, hdr, c1, hmono _ _ c2, c3, c4⟩
  · -- strictly taller: reorg along the new branch
    rw [← hH] at hcanon
    have hanc : Anc (submit_new_header hashH caller payment s header).2.headers
        (hashH g) g.height header.height (hashH header) :=
      stored_anc _ g (hashH g) hgs' swf' header.height (hashH header) header hnew rfl
    have hf_le : canonStop (submit_new_header hashH caller payment s header).2.headers
        header.height (hashH header) s.canon_chain ≤ header.height :=
      canonStop_le _ _ _ _
    have hf_ge : g.height ≤ canonStop
        (submit_new_header hashH caller payment s header).2.headers
        header.height (hashH header) s.canon_chain :=
      canonStop_ge hanc s.canon_chain inv.canon_genesis
    have hstop_eq := canonUpdate_at_stop hanc s.canon_chain inv.canon_genesis
    have hanc_at := fun h a b => anc_ancestor hanc h a b
    have hf_best : canonStop (submit_new_header hashH caller payment s header).2.headers
        header.height (hashH header) s.canon_chain ≤ s.best_height := by
      rcases hanc_at _ hf_ge hf_le with ⟨e, he, _⟩
      have hce : s.canon_chain (canonStop
          (submit_new_header hashH caller payment s header).2.headers
          header.height (hashH header) s.canon_chain) = some e := by
        rw [← hstop_eq, canonUpdate_range _ _ _ _ _ (Nat.le_refl _) hf_le, he]
      by_contra hcon
      rw [inv.canon_high _ (Nat.lt_of_not_le hcon)] at hce
      cases hce
    constructor
    · exact hgs'
    · exact swf'
    · exact hfee
    · rw [hbest]; omega
    · intro h hgt
      rw [hbest] at hgt
      rw [hcanon, canonUpdate_high _ _ _ _ _ hgt]
      exact inv.canon_high h (by omega)
    · rw [hcanon]
      rcases Nat.lt_or_ge g.height (canonStop
          (submit_new_header hashH caller payment s header).2.headers
          header.height (hashH header) s.canon_chain) with hgf | hgf
      · rw [canonUpdate_low _ _ _ _ _ hgf]
        exact inv.canon_genesis
      · have hgeq : g.height = canonStop
            (submit_new_header hashH caller payment s header).2.headers
            header.height (hashH header) s.canon_chain :=
          Nat.le_antisymm hf_ge hgf
        rw [hgeq, hstop_eq, ← hgeq]
        exact inv.canon_genesis
    · intro h hge hle
      rw [hbest] at hle
      rw [hcanon]
      rcases Nat.lt_or_ge h (canonStop
          (submit_new_header hashH caller payment s header).2.headers
          header.height (hashH header) s.canon_chain) with hlt | hgef
      · -- below the fork point: the old canonical entries are untouched
        rw [canonUpdate_low _ _ _ _ _ hlt]
        rcases inv.canon_contig h hge (by omega) with ⟨d, hdr, c1, c2, c3, c4⟩
        refine ⟨d, hdr, c1, hmono _ _ c2, c3, ?_⟩
        intro hgh
        rw [canonUpdate_low _ _ _ _ _ (by omega)]
        exact c4 hgh
      · -- at or above the fork point: the branch digests are canonical
        rw [canonUpdate_range _ _ _ _ _ hgef hle]
        rcases hanc_at h hge hle with ⟨e, he, hance⟩
        by_cases hgh : g.height < h
        · rcases anc_elim hance hgh with ⟨hdr, he1, he2, _⟩
          refine ⟨e, hdr, he, he1, he2, fun _ => ?_⟩
          rcases Nat.lt_or_ge (h - 1) (canonStop
              (submit_new_header hashH caller payment s header).2.headers
              header.height (hashH header) s.canon_chain) with hf1 | hf1
          · -- h is exactly the fork point
            have hhf : h = canonStop
                (submit_new_header hashH caller payment s header).2.headers
                header.height (hashH header) s.canon_chain := by omega
            rw [canonUpdate_low _ _ _ _ _ hf1]
            have hch : s.canon_chain h = some e := by
              have hcu : canonUpdate
                  (submit_new_header hashH caller payment s header).2.headers
                  header.height (hashH header) s.canon_chain h = some e := by
                rw [canonUpdate_range _ _ _ _ _ hgef hle, he]
              rw [hhf] at hcu ⊢
              rw [← hstop_eq, hcu]
            rcases inv.canon_contig h hge (by omega) with ⟨d2, hdr2, k1, k2, k3, k4⟩
            have hde : d2 = e := by
              rw [k1] at hch
              exact (Option.some.injEq _ _ ▸ hch)
            subst hde
            have hsame : (submit_new_header hashH caller payment s header).2.headers d2
                = some hdr2 := hmono _ _ k2
            rw [he1] at hsame
            have : hdr = hdr2 := by
              exact (Option.some.injEq _ _ ▸ hsame)
            rw [this]
            exact k4 hgh
          · -- strictly above the fork point: use the parent step of the branch
            rw [canonUpdate_range _ _ _ _ _ hf1 (by omega)]
            have hsub : header.height - (h - 1) = (header.height - h) + 1 := by omega
            rw [hsub]
            exact ancestor_succ _ _ _ _ _ he he1
        · -- at the genesis height
          have hhg : h = g.height := by omega
          subst hhg
          have he_gd : e = hashH g := anc_base_inv hance
          subst he_gd
          refine ⟨hashH g, g, he, hgs', rfl, ?_⟩
          intro hc
          exact absurd hc (Nat.lt_irrefl _)

theorem reachable_inv {hashH : Header → HashValue} {hashC : StateClaim → Nat}
    {g : Header} {diff rf vf : Nat} {a : AccountId} {s : SpvBridge}
    (hr : Reachable hashH hashC g diff rf vf a s) : BridgeInv hashH g s := by
  induction hr with
  | deploy => exact bridgeInv_new hashH a g diff rf vf
  | step c _ ih =>
    cases c with
    | submit caller payment header =>
      exact bridgeInv_submit hashH g caller payment _ header ih
    | verifyTx payment tx hh md p => exact ih
    | verifySt payment claim bh md p => exact ih

theorem submit_headers_mono (hashH : Header → HashValue) (caller : AccountId)
    (payment : Nat) (s : SpvBridge) (header : Header) (d : HashValue)
    (hdr : Header) (hd : s.headers d = some hdr) :
    (submit_new_header hashH caller payment s header).2.headers d = some hdr := by
  by_cases hok : (submit_new_header hashH caller payment s header).1 = .ok ()
  · obtain ⟨_, hfresh, _, _, hH, _, _⟩ :=
      submit_ok_elim hashH caller payment s header hok
    rw [hH]
    by_cases hdd : d = hashH header
    · subst hdd; rw [hd] at hfresh; cases hfresh
    · simp [hdd, hd]
  · rw [submit_error_state hashH caller payment s header hok]
    exact hd

theorem submit_best_mono (hashH : Header → HashValue) (caller : AccountId)
    (payment : Nat) (s : SpvBridge) (header : Header) :
    s.best_height ≤ (submit_new_header hashH caller payment s header).2.best_height := by
  by_cases hok : (submit_new_header hashH caller payment s header).1 = .ok ()
  · obtain ⟨_, _, _, _, _, _, hcases⟩ :=
      submit_ok_elim hashH caller payment s header hok
    rcases hcases with ⟨_, _, hbest⟩ | ⟨h6, _, hbest⟩
    · rw [hbest]
    · rw [hbest]; omega
  · rw [submit_error_state hashH caller payment s header hok]

theorem verify_check_iff (s : SpvBridge) (payment : Nat)
    (header_hash : HashValue) (min_depth : Nat) (claim_digest : Nat)
    (p : MerkleProof) (selectRoot : Header → Nat) :
    verify_check s payment header_hash min_depth claim_digest p selectRoot = true ↔
      (s.verify_fee ≤ payment ∧ ∃ hdr, s.headers header_hash = some hdr ∧
        s.canon_chain hdr.height = some header_hash ∧
        min_depth ≤ s.best_height - hdr.height ∧
        MerkleProof.check_merkle_proof claim_digest p (selectRoot hdr) = true) := by
  unfold verify_check
  cases hq : s.headers header_hash with
  | none => simp [hq]
  | some hdr => simp [hq, Bool.and_eq_true, and_assoc]

theorem verify_check_depth_false (s : SpvBridge) (payment : Nat)
    (header_hash : HashValue) (min_depth : Nat) (claim_digest : Nat)
    (p : MerkleProof) (selectRoot : Header → Nat) (hdr : Header)
    (hstored : s.headers header_hash = some hdr)
    (hdepth : s.best_height - hdr.height < min_depth) :
    verify_check s payment header_hash min_depth claim_digest p selectRoot
      = false := by
  unfold verify_check
  have : ¬ min_depth ≤ s.best_height - hdr.height := by omega
  simp [hstored, this]

/-! ## Projection lemmas for the verification entry points -/

theorem verify_transaction_fst (s : SpvBridge) (payment tx_hash : Nat)
    (header_hash : HashValue) (min_depth : Nat) (p : MerkleProof) :
    (verify_transaction s payment tx_hash header_hash min_depth p).1
      = verify_check s payment header_hash min_depth tx_hash p
          (fun hdr => hdr.transactions_root) := rfl

theorem verify_transaction_snd (s : SpvBridge) (payment tx_hash : Nat)
    (header_hash : HashValue) (min_depth : Nat) (p : MerkleProof) :
    (verify_transaction s payment tx_hash header_hash min_depth p).2
      = if verify_check s payment header_hash min_depth tx_hash p
            (fun hdr => hdr.transactions_root)
        then (s.fee_recipient header_hash).map (fun a => (a, s.verify_fee))
        else none := rfl

theorem verify_state_fst (hashC : StateClaim → Nat) (s : SpvBridge)
    (payment : Nat) (claim : StateClaim) (block_hash : HashValue)
    (min_depth : Nat) (p : MerkleProof) :
    (verify_state hashC s payment claim block_hash min_depth p).1
      = verify_check s payment block_hash min_depth (hashC claim) p
          (fun hdr => hdr.storage_root) := rfl

theorem verify_state_snd (hashC : StateClaim → Nat) (s : SpvBridge)
    (payment : Nat) (claim : StateClaim) (block_hash : HashValue)
    (min_depth : Nat) (p : MerkleProof) :
    (verify_state hashC s payment claim block_hash min_depth p).2
      = if verify_check s payment block_hash min_depth (hashC claim) p
            (fun hdr => hdr.storage_root)
        then (s.fee_recipient block_hash).map (fun a => (a, s.verify_fee))
        else none := rfl

/-! ## The claims -/

/-- C9: for every genesis header, difficulty threshold, relay fee and
verify fee, the constructor unconditionally (no PoW and no parent check
appears in any hypothesis) stores the genesis header under its digest,
sets `best_height` to the genesis height, makes the genesis digest
canonical at that height, and records the calling account as the
fee-ledger recipient for the genesis digest. -/
theorem C9_constructor_initialisation (hashH : Header → HashValue)
    (caller : AccountId) (g : Header) (diff rf vf : Nat) :
    (SpvBridge.new hashH caller g diff rf vf).headers (hashH g) = some g ∧
    (SpvBridge.new hashH caller g diff rf vf).best_height = g.height ∧
    (SpvBridge.new hashH caller g diff rf vf).canon_chain g.height
      = some (hashH g) ∧
    (SpvBridge.new hashH caller g diff rf vf).fee_recipient (hashH g)
      = some caller := by
  refine ⟨?_, rfl, ?_, ?_⟩ <;> simp [SpvBridge.new]

/-- C10: `check_merkle_proof` returns exactly the proof's `verifies`
flag; the result does not depend on the claim digest or on the Merkle
root, so two calls differing only in claim and root agree. -/
theorem C10_check_merkle_proof_constant (claim1 claim2 root1 root2 claim root : Nat)
    (p : MerkleProof) :
    MerkleProof.check_merkle_proof claim1 p root1
      = MerkleProof.check_merkle_proof claim2 p root2 ∧
    MerkleProof.check_merkle_proof claim p root = p.verifies :=
  ⟨rfl, rfl⟩

/-- C6: across every single call to a mutating entry point of the
contract, `best_height` never decreases; since the constructor freshly
creates the state and every reachable state arises from the constructor
by such calls, `best_height` never decreases across any call sequence. -/
theorem C6_best_height_monotone (hashH : Header → HashValue)
    (hashC : StateClaim → Nat) (c : Call) (s : SpvBridge) :
    s.best_height ≤ (stepCall hashH hashC c s).best_height := by
  cases c with
  | submit caller payment header =>
    exact submit_best_mono hashH caller payment s header
  | verifyTx payment tx hh md p => exact Nat.le_refl _
  | verifySt payment claim bh md p => exact Nat.le_refl _

/-- C5: for every `min_depth` and every stored header, both
`verify_transaction` and `verify_state` return `false` whenever
`best_height` minus the header's height is strictly below `min_depth`,
whatever the payment, the proof and the other arguments are. -/
theorem C5_depth_gating (hashC : StateClaim → Nat) (s : SpvBridge)
    (payment tx_hash : Nat) (header_hash : HashValue) (min_depth : Nat)
    (claim : StateClaim) (p : MerkleProof) (hdr : Header)
    (hstored : s.headers header_hash = some hdr)
    (hdepth : s.best_height - hdr.height < min_depth) :
    (verify_transaction s payment tx_hash header_hash min_depth p).1 = false ∧
    (verify_state hashC s payment claim header_hash min_depth p).1 = false := by
  rw [verify_transaction_fst, verify_state_fst]
  exact ⟨verify_check_depth_false s payment header_hash min_depth tx_hash p _
           hdr hstored hdepth,
         verify_check_depth_false s payment header_hash min_depth (hashC claim) p _
           hdr hstored hdepth⟩

/-- C5 witness: on the example deployment the genesis header is stored,
it is 0 below the tip, and with `min_depth = 1` both verification calls
return `false` although the proof verifies and the fee is paid. -/
theorem C5_depth_gating_witness :
    s0.headers 1 = some gHeader ∧ s0.best_height - gHeader.height < 1 ∧
    ((verify_transaction s0 3 0 1 1 ⟨true⟩).1 = false ∧
     (verify_state toyHashClaim s0 3 ⟨0, 0⟩ 1 1 ⟨true⟩).1 = false) :=
  ⟨rfl, by decide,
   C5_depth_gating toyHashClaim s0 3 0 1 1 ⟨0, 0⟩ ⟨true⟩ gHeader rfl (by decide)⟩

/-- C2: validation of `submit_new_header` is applied in the fixed order
fee, duplicate, parent, height, PoW, and the call fails with exactly the
first error whose condition holds, succeeding when none does. Each
equivalence characterises one outcome by the failure of all earlier
conditions and the state of its own. -/
theorem C2_validation_order (hashH : Header → HashValue) (caller : AccountId)
    (payment : Nat) (s : SpvBridge) (header : Header) :
    ((submit_new_header hashH caller payment s header).1
        = .error .InsufficientRelayFee ↔ payment < s.relay_fee) ∧
    ((submit_new_header hashH caller payment s header).1
        = .error .HeaderAlreadySubmitted ↔
      ¬ payment < s.relay_fee ∧ (s.headers (hashH header)).isSome = true) ∧
    ((submit_new_header hashH caller payment s header).1
        = .error .UnknownParent ↔
      ¬ payment < s.relay_fee ∧ s.headers (hashH header) = none ∧
      s.headers header.parent = none) ∧
    ((submit_new_header hashH caller payment s header).1
        = .error .IncorrectHeight ↔
      ¬ payment < s.relay_fee ∧ s.headers (hashH header) = none ∧
      ∃ p, s.headers header.parent = some p ∧ header.height ≠ p.height + 1) ∧
    ((submit_new_header hashH caller payment s header).1
        = .error .PoWThresholdNotMet ↔
      ¬ payment < s.relay_fee ∧ s.headers (hashH header) = none ∧
      (∃ p, s.headers header.parent = some p ∧ header.height = p.height + 1) ∧
      ¬ hashH header < s.difficulty_threshold) ∧
    ((submit_new_header hashH caller payment s header).1 = .ok () ↔
      ¬ payment < s.relay_fee ∧ s.headers (hashH header) = none ∧
      (∃ p, s.headers header.parent = some p ∧ header.height = p.height + 1) ∧
      hashH header < s.difficulty_threshold) := by
  by_cases h1 : payment < s.relay_fee
  · rw [submit_eq_insufficient hashH caller payment s header h1]
    simp [h1]
  · by_cases h2 : (s.headers (hashH header)).isSome = true
    · rw [submit_eq_duplicate hashH caller payment s header h1 h2]
      have h2n : s.headers (hashH header) ≠ none :=
        Option.isSome_iff_ne_none.mp h2
      simp [h1, h2, h2n]
    · have h2' : s.headers (hashH header) = none := by
        rcases hx : s.headers (hashH header) with _ | v
        · rfl
        · rw [hx] at h2; simp at h2
      cases h3 : s.headers header.parent with
      | none =>
        rw [submit_eq_unknown_parent hashH caller payment s header h1 h2' h3]
        simp [h1, h2', h3]
      | some p =>
        by_cases h4 : header.height = p.height + 1
        · by_cases h5 : hashH header < s.difficulty_threshold
          · rcases Nat.lt_or_ge s.best_height header.height with h6 | h6
            · rw [submit_eq_ok_reorg hashH caller payment s header p h1 h2' h3 h4 h5 h6]
              simp [h1, h2', h4, h5]
            · rw [submit_eq_ok_noreorg hashH caller payment s header p h1 h2' h3 h4 h5 h6]
              simp [h1, h2', h4, h5]
          · rw [submit_eq_pow hashH caller payment s header p h1 h2' h3 h4 h5]
            simp [h1, h2', h4, h5]
        · rw [submit_eq_incorrect_height hashH caller payment s header p h1 h2' h3 h4]
          simp [h1, h2', h4]

/-- C3 counterexample: resubmitting the already-stored genesis header
with payment 0 (below the relay fee 5) does NOT fail with
`HeaderAlreadySubmitted`: the fee check runs first, so it fails with
`InsufficientRelayFee`. This refutes the claim that resubmitting a
stored header "always" fails with `HeaderAlreadySubmitted`. -/
theorem C3_resubmission_counterexample :
    (s0.headers (toyHash gHeader)).isSome = true ∧
    (submit_new_header toyHash 9 0 s0 gHeader).1
      ≠ .error .HeaderAlreadySubmitted ∧
    (submit_new_header toyHash 9 0 s0 gHeader).1
      = .error .InsufficientRelayFee := by
  refine ⟨rfl, ?_, rfl⟩
  intro hcontra
  have h : (submit_new_header toyHash 9 0 s0 gHeader).1
      = Except.error Error.InsufficientRelayFee := rfl
  rw [h] at hcontra
  cases hcontra

/-- C3 (amended): every failing call to `submit_new_header` leaves the
whole state unchanged, and resubmitting a header whose digest is already
stored always fails and mutates no state — with `HeaderAlreadySubmitted`
when the relay fee is covered, and with `InsufficientRelayFee` when it
is not. -/
theorem C3_errors_leave_state (hashH : Header → HashValue) (caller : AccountId)
    (payment : Nat) (s : SpvBridge) (header : Header) :
    (∀ e : Error, (submit_new_header hashH caller payment s header).1 = .error e →
      (submit_new_header hashH caller payment s header).2 = s) ∧
    ((s.headers (hashH header)).isSome = true →
      (¬ payment < s.relay_fee →
        (submit_new_header hashH caller payment s header).1
          = .error .HeaderAlreadySubmitted) ∧
      (payment < s.relay_fee →
        (submit_new_header hashH caller payment s header).1
          = .error .InsufficientRelayFee) ∧
      (submit_new_header hashH caller payment s header).2 = s) := by
  constructor
  · intro e herr
    apply submit_error_state
    rw [herr]
    simp
  · intro hdup
    refine ⟨?_, ?_, ?_⟩
    · intro h1
      rw [submit_eq_duplicate hashH caller payment s header h1 hdup]
    · intro h1
      rw [submit_eq_insufficient hashH caller payment s header h1]
    · apply submit_error_state
      by_cases h1 : payment < s.relay_fee
      · rw [submit_eq_insufficient hashH caller payment s header h1]; simp
      · rw [submit_eq_duplicate hashH caller payment s header h1 hdup]; simp

/-- C3 witness: on the example deployment, resubmitting the stored
genesis with payment 0 fails (with `InsufficientRelayFee`, the fee check
coming first) and leaves the state unchanged; with payment 5 it fails
with `HeaderAlreadySubmitted`. -/
theorem C3_errors_leave_state_witness :
    (s0.headers (toyHash gHeader)).isSome = true ∧ 0 < s0.relay_fee ∧
    (submit_new_header toyHash 9 0 s0 gHeader).1
      = .error .InsufficientRelayFee ∧
    (submit_new_header toyHash 9 0 s0 gHeader).2 = s0 ∧
    (submit_new_header toyHash 9 5 s0 gHeader).1
      = .error .HeaderAlreadySubmitted :=
  ⟨rfl, by decide,
   ((C3_errors_leave_state toyHash 9 0 s0 gHeader).2 rfl).2.1 (by decide),
   ((C3_errors_leave_state toyHash 9 0 s0 gHeader).2 rfl).2.2,
   ((C3_errors_leave_state toyHash 9 5 s0 gHeader).2 rfl).1 (by decide)⟩

/-- C1: for every successful call to `submit_new_header`, the header is
stored under its digest; if its height is at most `best_height` the
canonical index and `best_height` are untouched; if its height is
strictly greater, then `best_height` becomes the new height, the
canonical index at every height from the fork point (the height where
the backward walk stopped, `canonStop`) up to the new height equals the
new branch's digests (the `ancestor` chain of the new header), and every
canonical entry below the fork point is unchanged. -/
theorem C1_submit_fork_choice (hashH : Header → HashValue) (caller : AccountId)
    (payment : Nat) (s : SpvBridge) (header : Header)
    (hok : (submit_new_header hashH caller payment s header).1 = .ok ()) :
    (submit_new_header hashH caller payment s header).2.headers (hashH header)
      = some header ∧
    (header.height ≤ s.best_height →
      (submit_new_header hashH caller payment s header).2.canon_chain
        = s.canon_chain ∧
      (submit_new_header hashH caller payment s header).2.best_height
        = s.best_height) ∧
    (s.best_height < header.height →
      (submit_new_header hashH caller payment s header).2.best_height
        = header.height ∧
      (∀ h,
        canonStop (submit_new_header hashH caller payment s header).2.headers
          header.height (hashH header) s.canon_chain ≤ h →
        h ≤ header.height →
        (submit_new_header hashH caller payment s header).2.canon_chain h
          = ancestor (submit_new_header hashH caller payment s header).2.headers
              (hashH header) (header.height - h)) ∧
      (∀ h,
        h < canonStop (submit_new_header hashH caller payment s header).2.headers
          header.height (hashH header) s.canon_chain →
        (submit_new_header hashH caller payment s header).2.canon_chain h
          = s.canon_chain h)) := by
  obtain ⟨hpay, hfresh, ⟨p, hp, hh⟩, hpow, hH, hF, hcases⟩ :=
    submit_ok_elim hashH caller payment s header hok
  have hnew : (submit_new_header hashH caller payment s header).2.headers
      (hashH header) = some header := by
    rw [hH]; simp
  refine ⟨hnew, ?_, ?_⟩
  · intro h6
    rcases hcases with ⟨_, hc, hb⟩ | ⟨h6', _, _⟩
    · exact ⟨hc, hb⟩
    · omega
  · intro h6
    rcases hcases with ⟨h6', _, _⟩ | ⟨_, hc, hb⟩
    · omega
    · refine ⟨hb, ?_, ?_⟩
      · intro h hge hle
        rw [hH] at hge
        rw [hc, hH]
        exact canonUpdate_range _ _ _ _ _ hge hle
      · intro h hlt
        rw [hH] at hlt
        rw [hc]
        exact canonUpdate_low _ _ _ _ _ hlt

/-- C1 witness: on the example deployment, submitting the child header
of height 101 on top of the genesis (best height 100) succeeds, and the
fork-choice conclusions hold at that concrete input. -/
theorem C1_submit_fork_choice_witness :
    (submit_new_header toyHash 8 5 s0 aHeader).1 = .ok () ∧
    ((submit_new_header toyHash 8 5 s0 aHeader).2.headers (toyHash aHeader)
      = some aHeader ∧
    (aHeader.height ≤ s0.best_height →
      (submit_new_header toyHash 8 5 s0 aHeader).2.canon_chain
        = s0.canon_chain ∧
      (submit_new_header toyHash 8 5 s0 aHeader).2.best_height
        = s0.best_height) ∧
    (s0.best_height < aHeader.height →
      (submit_new_header toyHash 8 5 s0 aHeader).2.best_height
        = aHeader.height ∧
      (∀ h,
        canonStop (submit_new_header toyHash 8 5 s0 aHeader).2.headers
          aHeader.height (toyHash aHeader) s0.canon_chain ≤ h →
        h ≤ aHeader.height →
        (submit_new_header toyHash 8 5 s0 aHeader).2.canon_chain h
          = ancestor (submit_new_header toyHash 8 5 s0 aHeader).2.headers
              (toyHash aHeader) (aHeader.height - h)) ∧
      (∀ h,
        h < canonStop (submit_new_header toyHash 8 5 s0 aHeader).2.headers
          aHeader.height (toyHash aHeader) s0.canon_chain →
        (submit_new_header toyHash 8 5 s0 aHeader).2.canon_chain h
          = s0.canon_chain h))) :=
  ⟨rfl, C1_submit_fork_choice toyHash 8 5 s0 aHeader rfl⟩

/-- C4: in every reachable state, `verify_transaction` and `verify_state`
return `true` exactly when the payment covers `verify_fee`, the header is
stored, it is canonical at its height, its depth below `best_height` is
at least `min_depth`, and the proof oracle accepts the claim's digest
against the relevant commitment root; and a `true` result pays
`verify_fee` to the identity recorded in the fee ledger for that header
digest. -/
theorem C4_verification_characterisation (hashH : Header → HashValue)
    (hashC : StateClaim → Nat) (g : Header) (diff rf vf : Nat) (a : AccountId)
    (s : SpvBridge) (hr : Reachable hashH hashC g diff rf vf a s)
    (payment tx_hash : Nat) (header_hash : HashValue) (min_depth : Nat)
    (claim : StateClaim) (p : MerkleProof) :
    ((verify_transaction s payment tx_hash header_hash min_depth p).1 = true ↔
      (s.verify_fee ≤ payment ∧ ∃ hdr, s.headers header_hash = some hdr ∧
        s.canon_chain hdr.height = some header_hash ∧
        min_depth ≤ s.best_height - hdr.height ∧
        MerkleProof.check_merkle_proof tx_hash p hdr.transactions_root = true)) ∧
    ((verify_transaction s payment tx_hash header_hash min_depth p).1 = true →
      ∃ r, s.fee_recipient header_hash = some r ∧
        (verify_transaction s payment tx_hash header_hash min_depth p).2
          = some (r, s.verify_fee)) ∧
    ((verify_state hashC s payment claim header_hash min_depth p).1 = true ↔
      (s.verify_fee ≤ payment ∧ ∃ hdr, s.headers header_hash = some hdr ∧
        s.canon_chain hdr.height = some header_hash ∧
        min_depth ≤ s.best_height - hdr.height ∧
        MerkleProof.check_merkle_proof (hashC claim) p hdr.storage_root = true)) ∧
    ((verify_state hashC s payment claim header_hash min_depth p).1 = true →
      ∃ r, s.fee_recipient header_hash = some r ∧
        (verify_state hashC s payment claim header_hash min_depth p).2
          = some (r, s.verify_fee)) := by
  have hrec : ∀ hdr, s.headers header_hash = some hdr →
      ∃ r, s.fee_recipient header_hash = some r := by
    intro hdr hstored
    have := (reachable_inv hr).fee_entry header_hash (by simp [hstored])
    exact Option.isSome_iff_exists.mp this
  refine ⟨?_, ?_, ?_, ?_⟩
  · rw [verify_transaction_fst]
    exact verify_check_iff s payment header_hash min_depth tx_hash p _
  · intro htrue
    have hvc : verify_check s payment header_hash min_depth tx_hash p
        (fun hdr => hdr.transactions_root) = true := by
      rw [← verify_transaction_fst s payment tx_hash header_hash min_depth p]
      exact htrue
    rcases (verify_check_iff s payment header_hash min_depth tx_hash p _).mp hvc
      with ⟨_, hdr, hstored, _⟩
    rcases hrec hdr hstored with ⟨r, hr2⟩
    refine ⟨r, hr2, ?_⟩
    rw [verify_transaction_snd, hvc]
    simp [hr2]
  · rw [verify_state_fst]
    exact verify_check_iff s payment header_hash min_depth (hashC claim) p _
  · intro htrue
    have hvc : verify_check s payment header_hash min_depth (hashC claim) p
        (fun hdr => hdr.storage_root) = true := by
      rw [← verify_state_fst hashC s payment claim header_hash min_depth p]
      exact htrue
    rcases (verify_check_iff s payment header_hash min_depth (hashC claim) p _).mp hvc
      with ⟨_, hdr, hstored, _⟩
    rcases hrec hdr hstored with ⟨r, hr2⟩
    refine ⟨r, hr2, ?_⟩
    rw [verify_state_snd, hvc]
    simp [hr2]

/-- C4 witness: on the freshly deployed example state (reachable by the
constructor alone), the characterisation holds at a concrete input where
both verifications succeed against the canonical genesis. -/
theorem C4_verification_characterisation_witness :
    ((verify_transaction s0 3 0 1 0 ⟨true⟩).1 = true ↔
      (s0.verify_fee ≤ 3 ∧ ∃ hdr, s0.headers 1 = some hdr ∧
        s0.canon_chain hdr.height = some 1 ∧
        0 ≤ s0.best_height - hdr.height ∧
        MerkleProof.check_merkle_proof 0 ⟨true⟩ hdr.transactions_root = true)) ∧
    ((verify_transaction s0 3 0 1 0 ⟨true⟩).1 = true →
      ∃ r, s0.fee_recipient 1 = some r ∧
        (verify_transaction s0 3 0 1 0 ⟨true⟩).2 = some (r, s0.verify_fee)) ∧
    ((verify_state toyHashClaim s0 3 ⟨0, 0⟩ 1 0 ⟨true⟩).1 = true ↔
      (s0.verify_fee ≤ 3 ∧ ∃ hdr, s0.headers 1 = some hdr ∧
        s0.canon_chain hdr.height = some 1 ∧
        0 ≤ s0.best_height - hdr.height ∧
        MerkleProof.check_merkle_proof (toyHashClaim ⟨0, 0⟩) ⟨true⟩
          hdr.storage_root = true)) ∧
    ((verify_state toyHashClaim s0 3 ⟨0, 0⟩ 1 0 ⟨true⟩).1 = true →
      ∃ r, s0.fee_recipient 1 = some r ∧
        (verify_state toyHashClaim s0 3 ⟨0, 0⟩ 1 0 ⟨true⟩).2
          = some (r, s0.verify_fee)) :=
  C4_verification_characterisation toyHash toyHashClaim gHeader 10 5 3 7 s0
    Reachable.deploy 3 0 1 0 ⟨0, 0⟩ ⟨true⟩

/-- C7: in every reachable state, canonical contiguity holds: every
height between the genesis height and `best_height` has a canonical
digest, the header stored at that digest has that height, and above the
genesis height its parent is the canonical digest one height below. -/
theorem C7_canonical_contiguity (hashH : Header → HashValue)
    (hashC : StateClaim → Nat) (g : Header) (diff rf vf : Nat) (a : AccountId)
    (s : SpvBridge) (hr : Reachable hashH hashC g diff rf vf a s)
    (h : Nat) (h1 : g.height ≤ h) (h2 : h ≤ s.best_height) :
    ∃ d hdr, s.canon_chain h = some d ∧ s.headers d = some hdr ∧
      hdr.height = h ∧ (g.height < h → s.canon_chain (h - 1) = some hdr.parent) :=
  (reachable_inv hr).canon_contig h h1 h2

/-- C7 witness: in the freshly deployed example state, contiguity holds
at height 100 (the genesis height, equal to the best height). -/
theorem C7_canonical_contiguity_witness :
    gHeader.height ≤ 100 ∧ 100 ≤ s0.best_height ∧
    (∃ d hdr, s0.canon_chain 100 = some d ∧ s0.headers d = some hdr ∧
      hdr.height = 100 ∧
      (gHeader.height < 100 → s0.canon_chain 99 = some hdr.parent)) :=
  ⟨by decide, by decide,
   C7_canonical_contiguity toyHash toyHashClaim gHeader 10 5 3 7 s0
     Reachable.deploy 100 (by decide) (by decide)⟩

/-- C8: in every reachable state, every stored header other than the
genesis has its parent stored as well, and header-store entries are
never removed or replaced: an entry survives any further call with the
same header. -/
theorem C8_header_store_integrity (hashH : Header → HashValue)
    (hashC : StateClaim → Nat) (g : Header) (diff rf vf : Nat) (a : AccountId)
    (s : SpvBridge) (hr : Reachable hashH hashC g diff rf vf a s)
    (c : Call) (d : HashValue) (hdr : Header) :
    (s.headers d = some hdr → d ≠ hashH g →
      (s.headers hdr.parent).isSome = true) ∧
    (s.headers d = some hdr → (stepCall hashH hashC c s).headers d = some hdr) := by
  constructor
  · intro hd hne
    rcases (reachable_inv hr).stored_wf d hdr hd hne with ⟨p, hp, _, _⟩
    simp [hp]
  · intro hd
    cases c with
    | submit caller payment header =>
      exact submit_headers_mono hashH caller payment s header d hdr hd
    | verifyTx payment tx hh md p => exact hd
    | verifySt payment claim bh md p => exact hd

/-- C8 witness: in the freshly deployed example state, the genesis entry
survives the submission of the child header unchanged. -/
theorem C8_header_store_integrity_witness :
    s0.headers 1 = some gHeader ∧
    (stepCall toyHash toyHashClaim (Call.submit 8 5 aHeader) s0).headers 1
      = some gHeader :=
  ⟨rfl,
   (C8_header_store_integrity toyHash toyHashClaim gHeader 10 5 3 7 s0
     Reachable.deploy (Call.submit 8 5 aHeader) 1 gHeader).2 rfl⟩
